/-
Verification of the secondary-structure utilities and graph featurizer of the
structure-informed RNA inverse-design repository.

The Python sources (src/data/sec_struct_utils.py and src/data/featurizer.py)
are shallowly embedded below.  Conventions:

* Python lists become Lean `List`s; numpy boolean-mask selection and fancy
  indexing become explicit combinators (`maskSelect`, `List.map` over an index
  list).
* Python exceptions (IndexError from out-of-range access or popping an empty
  stack, AssertionError from a failed `assert`) are modelled with `Option` /
  `Except`: a `none` / `.error` result is an uncaught Python exception.
* Real-valued coordinates are modelled over `ℚ`; the featurizer's masking
  logic only ever compares coordinates for equality with the missing-value
  sentinel `FILL_VALUE` (a constant of the shared utility module, passed here
  as an explicit `fill` argument), so no other arithmetic on coordinates is
  needed by the properties below.
* Calls to external subprocesses are modelled by an explicit oracle argument
  giving the tool's stdout, and the list of spawned commands is returned so
  that "no subprocess was spawned" is expressible.
* Randomness (numpy `random.choice`, `random.sample`) is modelled by passing
  the drawn index list as an argument; theorems quantify over all draws that
  the Python sampler can produce (stated as hypotheses: indices in range,
  distinct when sampling is without replacement).
-/
import Mathlib

namespace RNADesign

/-! ## Generic helpers -/

/-- numpy / torch boolean-mask selection `xs[mask]`: keep the entries of `xs`
whose aligned mask entry is `true`. -/
def maskSelect {α : Type} : List α → List Bool → List α
  | x :: xs, b :: bs => if b then x :: maskSelect xs bs else maskSelect xs bs
  | _, _ => []

/-! ## sec_struct_utils.py: dot-bracket conversions

`dotbracket_to_adjacency` builds an `n × n` 0/1 matrix, modelled as a function
`Nat → Nat → Int` together with the single-entry update `matUpd` (the numpy
assignment `adj[i, j] = v`).  The scan keeps a stack of the indices of open
brackets; popping the empty stack is a Python `IndexError`, modelled as
`none`. -/

/-- numpy single-entry assignment `adj[i, j] = v`. -/
def matUpd (m : Nat → Nat → Int) (i j : Nat) (v : Int) : Nat → Nat → Int :=
  fun a b => if a = i ∧ b = j then v else m a b

/-- The character loop of `dotbracket_to_adjacency`: `i` is the current string
index, `stack` the indices of currently unmatched open brackets (most recent
first, as in a Python list used with `append`/`pop`). -/
def dbAdjGo : List Char → Nat → List Nat → (Nat → Nat → Int) → Option (Nat → Nat → Int)
  | [], _, _, adj => some adj
  | c :: cs, i, stack, adj =>
    if c = '(' then
      dbAdjGo cs (i + 1) (i :: stack) adj
    else if c = ')' then
      match stack with
      | [] => none
      | j :: rest => dbAdjGo cs (i + 1) rest (matUpd (matUpd adj i j 1) j i 1)
    else
      dbAdjGo cs (i + 1) stack adj

/-- `dotbracket_to_adjacency` from sec_struct_utils.py.  The matrix is
returned as an entry function; `none` models the uncaught IndexError raised
by `stack.pop()` on an unmatched closing bracket. -/
def dotbracket_to_adjacency (s : String) : Option (Nat → Nat → Int) :=
  dbAdjGo s.data 0 [] (fun _ _ => 0)

/-- The character loop of `dotbracket_to_num` — the source of
`dotbracket_to_num` is textually identical to `dotbracket_to_adjacency`
(only the docstring differs), so this loop repeats `dbAdjGo`. -/
def dbNumGo : List Char → Nat → List Nat → (Nat → Nat → Int) → Option (Nat → Nat → Int)
  | [], _, _, adj => some adj
  | c :: cs, i, stack, adj =>
    if c = '(' then
      dbNumGo cs (i + 1) (i :: stack) adj
    else if c = ')' then
      match stack with
      | [] => none
      | j :: rest => dbNumGo cs (i + 1) rest (matUpd (matUpd adj i j 1) j i 1)
    else
      dbNumGo cs (i + 1) stack adj

/-- `dotbracket_to_num` from sec_struct_utils.py. -/
def dotbracket_to_num (s : String) : Option (Nat → Nat → Int) :=
  dbNumGo s.data 0 [] (fun _ _ => 0)

/-- Direct stack-based parse of a dot-bracket string into its list of paired
index tuples `(open, close)` (the reference parse the spec compares the
adjacency matrix against). -/
def stackParseGo : List Char → Nat → List Nat → List (Nat × Nat) → Option (List (Nat × Nat))
  | [], _, _, acc => some acc
  | c :: cs, i, stack, acc =>
    if c = '(' then
      stackParseGo cs (i + 1) (i :: stack) acc
    else if c = ')' then
      match stack with
      | [] => none
      | j :: rest => stackParseGo cs (i + 1) rest ((j, i) :: acc)
    else
      stackParseGo cs (i + 1) stack acc

/-- Direct stack-based parse of a dot-bracket string. -/
def stackParse (s : String) : Option (List (Nat × Nat)) :=
  stackParseGo s.data 0 [] []

/-- A dot-bracket string is balanced when every closing bracket has a
preceding unmatched opening bracket: no prefix holds more `)` than `(`. -/
def Balanced (s : String) : Prop :=
  ∀ k, k ≤ s.data.length → (s.data.take k).count ')' ≤ (s.data.take k).count '('

/-! ## sec_struct_utils.py: x3dna_to_sec_struct

The find_pair stdout is a list of lines.  Python's `line.split()`
(whitespace split, empty tokens dropped), `int(tok)`, out-of-range list
access (IndexError, modelled as `none`), and `lst[i] = c` with Python's
negative-index wrap-around are modelled below. -/

/-- Helper for `pySplit`: walk the characters keeping the (reversed) current
token; whitespace ends the token, empty tokens are dropped. -/
def splitWsGo : List Char → List Char → List String
  | [], cur => if cur.isEmpty then [] else [String.mk cur.reverse]
  | c :: cs, cur =>
    if c = ' ' ∨ c = '\t' then
      if cur.isEmpty then splitWsGo cs [] else String.mk cur.reverse :: splitWsGo cs []
    else
      splitWsGo cs (c :: cur)

/-- Python `s.split()`: split on whitespace runs, dropping empty tokens (the
lines come from splitting stdout on newlines, so only spaces and tabs
remain within a line). -/
def pySplit (s : String) : List String := splitWsGo s.data []

/-- Decimal digit value of a character, if it is a digit. -/
def digitVal (c : Char) : Option Nat :=
  if '0' ≤ c ∧ c ≤ '9' then some (c.toNat - '0'.toNat) else none

/-- Accumulate the decimal value of a digit string; any non-digit is a
Python ValueError (`none`). -/
def parseDigitsGo : List Char → Nat → Option Nat
  | [], acc => some acc
  | c :: cs, acc =>
    match digitVal c with
    | some d => parseDigitsGo cs (10 * acc + d)
    | none => none

/-- Python `int(s)` on a whitespace-free token: an optional sign followed by
at least one decimal digit; anything else raises ValueError (`none`). -/
def pyInt (s : String) : Option Int :=
  match s.data with
  | [] => none
  | '-' :: cs =>
    if cs.isEmpty then none else (parseDigitsGo cs 0).map (fun n => -(n : Int))
  | '+' :: cs =>
    if cs.isEmpty then none else (parseDigitsGo cs 0).map (fun n => (n : Int))
  | cs => (parseDigitsGo cs 0).map (fun n => (n : Int))

/-- Helper for `pySplitLines`: split on every newline, keeping empty
pieces. -/
def pySplitLinesGo : List Char → List Char → List String
  | [], cur => [String.mk cur.reverse]
  | c :: cs, cur =>
    if c = '\n' then String.mk cur.reverse :: pySplitLinesGo cs []
    else pySplitLinesGo cs (c :: cur)

/-- Python `s.split("\n")`: split on each newline occurrence, keeping empty
pieces (so the result is never empty). -/
def pySplitLines (s : String) : List String := pySplitLinesGo s.data []

/-- Python list assignment `xs[i] = c` with an `Int` index: negative indices
wrap around from the end; a still-out-of-range index is an IndexError
(`none`). -/
def pyListSet (xs : List Char) (i : Int) (c : Char) : Option (List Char) :=
  let n : Int := xs.length
  let j : Int := if i < 0 then i + n else i
  if 0 ≤ j ∧ j < n then some (xs.set j.toNat c) else none

/-- Parse the first two whitespace-delimited tokens of a pair line as
integers: `int(line[0]), int(line[1])` after `line = output[...].split()`. -/
def parsePairTokens (ln : String) : Option (Int × Int) := do
  let toks := pySplit ln
  let t0 ← toks.get? 0
  let t1 ← toks.get? 1
  let a ← pyInt t0
  let b ← pyInt t1
  some (a, b)

/-- Write one base pair into the dot-bracket character list:
`sec_struct[start-1] = "("` then `sec_struct[end-1] = ")"`. -/
def writePair (acc : List Char) (pr : Int × Int) : Option (List Char) := do
  let acc1 ← pyListSet acc (pr.1 - 1) '('
  pyListSet acc1 (pr.2 - 1) ')'

/-- The pair loop of `x3dna_to_sec_struct`: iteration `i` (starting at 1)
reads `output[4 + i]`, so the pair lines are the line indices 5 .. 4+N. -/
def x3dnaLoop (output : List String) (i : Nat) (cnt : Nat) (acc : List Char) :
    Option (List Char) :=
  match cnt with
  | 0 => some acc
  | Nat.succ c => do
      let ln ← output.get? (4 + i)
      let pr ← parsePairTokens ln
      let acc2 ← writePair acc pr
      x3dnaLoop output (i + 1) c acc2

/-- `x3dna_to_sec_struct` from sec_struct_utils.py: the base-pair count is
`int(output[3].split()[0])`; the loop `for i in range(1, N+1)` reads line
`output[4+i]` and writes `(` / `)` into a dot-list of the sequence's
length.  `none` is an uncaught IndexError / ValueError. -/
def x3dna_to_sec_struct (output : List String) (sequence : String) : Option String := do
  let l3 ← output.get? 3
  let t ← (pySplit l3).get? 0
  let nbp ← pyInt t
  let res ← x3dnaLoop output 1 nbp.toNat (List.replicate sequence.length '.')
  some (String.mk res)

/-- Modelled from the spec (C5): same parse but with the pair lines taken to
be "the following N lines" after the count line of index 3, i.e. line
indices 4 .. 3+N — iteration `i` reads `output[3 + i]`. -/
def x3dnaSpecLoop (output : List String) (i : Nat) (cnt : Nat) (acc : List Char) :
    Option (List Char) :=
  match cnt with
  | 0 => some acc
  | Nat.succ c => do
      let ln ← output.get? (3 + i)
      let pr ← parsePairTokens ln
      let acc2 ← writePair acc pr
      x3dnaSpecLoop output (i + 1) c acc2

/-- Modelled from the spec (C5): the parser as the claim describes it — count
from line index 3, pairs from the N lines immediately following it. -/
def x3dna_to_sec_struct_specRead (output : List String) (sequence : String) :
    Option String := do
  let l3 ← output.get? 3
  let t ← (pySplit l3).get? 0
  let nbp ← pyInt t
  let res ← x3dnaSpecLoop output 1 nbp.toNat (List.replicate sequence.length '.')
  some (String.mk res)

/-! ## sec_struct_utils.py: predict_sec_struct

The EternaFold subprocess is abstracted by `runTool`, a map from the spawned
command line to the tool's stdout.  The returned first component is the list
of commands actually spawned, so "fails before any subprocess is spawned"
is the statement that this list is empty.  The optional temporary-fasta
write of the `sequence is not None` mode is a plain file write, not a
subprocess, and does not affect that trace; the model takes the fasta path
as given. -/

/-- Python exception classes relevant to `predict_sec_struct`. -/
inductive PyErr where
  | assertionError : PyErr
  | indexError : PyErr
  deriving DecidableEq

/-- `predict_sec_struct` from sec_struct_utils.py.  Returns the list of
spawned subprocess command lines together with the result: the guard
`assert n_samples == 100` fires (only) in the `n_samples > 1` branch before
`subprocess.run`; `n_samples <= 1` takes the `predict` path and returns
`[output.split("\n")[-2]]`, an IndexError when stdout has fewer than two
newline-separated fields. -/
def predict_sec_struct (eternafold_path : String) (fasta_file_path : String)
    (n_samples : Int) (runTool : List String → String) :
    List (List String) × Except PyErr (List String) :=
  if n_samples > 1 then
    if n_samples = 100 then
      let cmd := [eternafold_path, "sample", fasta_file_path]
      let out := runTool cmd
      ([cmd], Except.ok ((pySplitLines out).dropLast))
    else
      ([], Except.error PyErr.assertionError)
  else
    let cmd := [eternafold_path, "predict", fasta_file_path]
    let out := runTool cmd
    let lines := pySplitLines out
    if 2 ≤ lines.length then
      ([cmd], Except.ok [lines.getD (lines.length - 2) ""])
    else
      ([cmd], Except.error PyErr.indexError)

/-! ## featurizer.py: get_k_random_entries_and_masks_2

Coordinates: one conformer is a `(num_residues, num_atoms, 3)` array,
modelled as nested lists over `ℚ`; `fill` is the missing-value sentinel
`FILL_VALUE` imported from the shared utility module (used only through
equality comparison).  The random draw `rand_idx` (numpy
`random.choice(n, size=…, replace=…)`) is an argument.

Python's `basepairs` argument is the caller's list object
(`rna[self.base_pairing]` in `__call__`): in the `k > n` branch the source
executes `basepairs.append(basepairs[idx])`, mutating that list in place
(every `idx` drawn from `range(n)` reads an original entry even as the list
grows).  The embedding therefore returns, besides the function's return
values, the state of the caller's list after the call
(`input_basepairs_after`). -/

/-- Base-pair list of one conformer (1-indexed residue positions). -/
abbrev BPs := List (Int × Int)

/-- One residue's atoms: `num_atoms × 3` coordinates. -/
abbrev Residue3 := List (List ℚ)

/-- One conformer: per-residue atom coordinates. -/
abbrev Conf := List Residue3

/-- Number of coordinate entries of one residue equal to the sentinel
(`(… == FILL_VALUE)` summed over the atom and spatial axes). -/
def fillCountRes (fill : ℚ) (r : Residue3) : Nat :=
  (r.map (fun atom => (atom.filter (fun x => x = fill)).length)).sum

/-- Sentinel count at residue position `i` summed over a list of conformers
(numpy `(A == FILL_VALUE).sum(axis=(0,2,3))` at index `i`). -/
def fillCountAt (fill : ℚ) (confs : List Conf) (i : Nat) : Nat :=
  (confs.map (fun c => fillCountRes fill (c.getD i []))).sum

/-- The position-0 rescue of the `k ≤ n` branch:
`if mask_coords[0] == False and (coords_list[:,0] == FILL_VALUE).sum() < 4:
mask_coords[0] = True`, applied to the head of the mask (`rescueOk` is the
under-4 test over all original conformers).  On the empty mask the Python
access `mask_coords[0]` would raise an IndexError. -/
def rescueHead (rescueOk : Bool) : List Bool → List Bool
  | [] => []
  | m0 :: restMask => (if !m0 && rescueOk then true else m0) :: restMask

/-- Result of `get_k_random_entries_and_masks_2`, plus the post-call state of
the caller's base-pair list (`input_basepairs_after`), which the `k > n`
branch mutates through aliasing. -/
structure GetKOut where
  confs_list : List Conf
  basepairs : List BPs
  input_basepairs_after : List BPs
  mask_coords : List Bool
  mask_confs : List Bool

/-- `get_k_random_entries_and_masks_2` from featurizer.py.

* `k > n`: keep all `n` conformers and pad with `k - n` draws with
  replacement (`rand_idx`, each `< n`); the drawn base-pair lists are
  appended in place to the caller's list; a residue is valid when fewer
  than 4 sentinel entries exist for it across the `n` original conformers.
* `k ≤ n`: draw `k` distinct conformers (`rand_idx`); a residue is valid
  when no sentinel entry exists for it across the drawn conformers, except
  that position 0 is rescued when fewer than 4 sentinel entries exist at
  position 0 across all `n` original conformers.  (With zero residues the
  Python code would raise an IndexError at `mask_coords[0]`; the match arm
  for the empty mask returns `[]`.)
* the conformer mask is `[1] * k` in both branches. -/
def get_k_random_entries_and_masks_2 (fill : ℚ) (coords_list : List Conf)
    (basepairs : List BPs) (k : Nat) (rand_idx : List Nat) : GetKOut :=
  let n := coords_list.length
  let numRes := (coords_list.headD []).length
  if k > n then
    let confs := coords_list ++ rand_idx.map (fun i => coords_list.getD i [])
    let bpsAfter := basepairs ++ rand_idx.map (fun i => basepairs.getD i [])
    let mask := (List.range numRes).map (fun r => decide (fillCountAt fill coords_list r < 4))
    ⟨confs, bpsAfter, bpsAfter, mask, List.replicate k true⟩
  else
    let confs := rand_idx.map (fun i => coords_list.getD i [])
    let bpsSel := rand_idx.map (fun i => basepairs.getD i [])
    let base := (List.range numRes).map (fun r => decide (fillCountAt fill confs r = 0))
    let mask := rescueHead (decide (fillCountAt fill coords_list 0 < 4)) base
    ⟨confs, bpsSel, basepairs, mask, List.replicate k true⟩

/-! ## featurizer.py: residue filtering and offset_basepairs

`seq[mask_coords]` (torch boolean-mask indexing) is `maskSelect`.
`offset_basepairs` builds `pair_map = np.arange(1, len(masks)+1)`, keys
`pair_map[masks]`, values `np.arange(1, len(keys)+1)`, a dict from their
zip, translates each endpoint with `dict.get(…, 0)` and keeps the pairs
whose endpoints both resolved. -/

/-- A Python dict built from `zip(keys, vals)` and looked up with
`.get(p, 0)`.  The keys built by `offset_basepairs` are strictly increasing,
hence unique, so first-match lookup is the dict lookup. -/
def dictGet : List (Nat × Nat) → Int → Int
  | [], _ => 0
  | (key, v) :: restPairs, p => if (key : Int) = p then (v : Int) else dictGet restPairs p

/-- `pair_masked_keys = pair_map[masks]` with
`pair_map = np.arange(start=1, stop=len(masks)+1)`. -/
def pair_masked_keys (masks : List Bool) : List Nat :=
  maskSelect ((List.range masks.length).map (· + 1)) masks

/-- `pair_masked_vals = np.arange(start=1, stop=len(pair_masked_keys)+1)`. -/
def pair_masked_vals (masks : List Bool) : List Nat :=
  (List.range (pair_masked_keys masks).length).map (· + 1)

/-- The remap dictionary of `offset_basepairs` queried at `p`: the new
1-indexed position of the old 1-indexed position `p`, or 0 when `p` was
dropped (or never existed). -/
def bpDictGet (masks : List Bool) (p : Int) : Int :=
  dictGet ((pair_masked_keys masks).zip (pair_masked_vals masks)) p

/-- `offset_basepairs` from featurizer.py: per conformer, translate both
endpoints of every pair through the survivor dictionary and keep only the
pairs whose endpoints both resolved (a dict miss yields 0 and drops the
pair). -/
def offset_basepairs (basepairs : List BPs) (masks : List Bool) : List BPs :=
  basepairs.map (fun confPairs =>
    ((confPairs.map (fun pr => (bpDictGet masks pr.1, bpDictGet masks pr.2))).filter
      (fun pr => pr.1 != 0 && pr.2 != 0)))

/-- Reference shape of the survivor dictionary: walking the mask from old
position `s` (1-indexed) with next fresh new position `t`. -/
def kvRec : Nat → Nat → List Bool → List (Nat × Nat)
  | _, _, [] => []
  | s, t, true :: ms => (s, t) :: kvRec (s + 1) (t + 1) ms
  | s, t, false :: ms => kvRec (s + 1) t ms

/-! ## sec_struct_utils.py: get_unpaired, and featurizer.py: tertiary edges

`get_unpaired(length, basepairs)` starts from `list(range(length))` and
removes, for every non-adjacent pair, its two 0-indexed endpoints (each
removal a no-op when absent — Python checks membership before `remove`).

`unpaired_cluster_dbscan` runs sklearn DBSCAN over the mean coordinates of
the unpaired residues.  DBSCAN itself is an external library: it is
abstracted by its outputs, a cluster label per point (`labels`, −1 = noise)
and a core-point flag per point (`core`, the expansion of
`db.core_sample_indices_`).  Likewise `dist_2` belongs to the shared utility
module absent from the sources; coordinates are real-valued, so the
composite map "pair of residue indices ↦ distance of their mean
coordinates" is abstracted as the argument `dist` (over `Int`: only the
order comparisons of distances matter to the control flow).  Within a cluster, every
ordered pair of core members `(idx_mem[i], idx_mem[j])`, `i < j`, with
sequence separation above `primary_dist` and distance strictly between 2
and `2·dbscan_eps` becomes a directed candidate edge.  Python iterates
`set(db.labels_)`, whose order is unspecified; the embedding iterates the
labels in first-occurrence order (`dedup`), which leaves candidate
membership and count unchanged.

`to_undirected` (torch_geometric) concatenates the reversed edges and
coalesces, i.e. sorts and removes duplicate directed edges; sorting does
not change membership or count, so coalescing is modelled as `dedup`.

`tertiary_edges_for_conformer` is the tertiary-edge step of
`RNAGraphFeaturizer.__call__` (featurizer.py lines 149–154): when the
directed candidate count exceeds `2 * len(seq)`, `random.sample` draws
`2 * len(seq)` distinct candidate positions (`choices`) and the candidate
set is restricted to them before `to_undirected`. -/

/-- `get_unpaired` from sec_struct_utils.py. -/
def get_unpaired (numSeq : Nat) (basepairs : BPs) : List Int :=
  basepairs.foldl
    (fun acc pr =>
      if (pr.2 - pr.1).natAbs ≠ 1 then (acc.erase (pr.1 - 1)).erase (pr.2 - 1)
      else acc)
    ((List.range numSeq).map (fun i : Nat => (i : Int)))

/-- Boolean membership mask of cluster `lab` among the clustered points:
`(db.labels_ == lab) & core_samples_mask`. -/
def labelMask (labels : List Int) (core : List Bool) (lab : Int) : List Bool :=
  (labels.zip core).map (fun pc => (pc.1 == lab) && pc.2)

/-- The double loop over a cluster's core members: all pairs
`(idx_mem[i], idx_mem[j])` with `i < j` passing the `keep` filter. -/
def pairsOf (keep : Int → Int → Bool) : List Int → List (Int × Int)
  | [] => []
  | a :: restIdx =>
    ((restIdx.filter (fun b => keep a b)).map (fun b => (a, b))) ++ pairsOf keep restIdx

/-- `unpaired_cluster_dbscan` from featurizer.py, with the DBSCAN fit
abstracted by `labels`/`core` and the mean-coordinate distance by `dist`. -/
def unpaired_cluster_dbscan (unpaired_idx : List Int) (labels : List Int)
    (core : List Bool) (dist : Int → Int → Int) (primary_dist : Nat)
    (dbscan_eps : Int) : List (Int × Int) :=
  if unpaired_idx.isEmpty then [] else
    let keep : Int → Int → Bool := fun a b =>
      decide (primary_dist < (a - b).natAbs) &&
        (decide ((2 : Int) < dist a b) && decide (dist a b < 2 * dbscan_eps))
    ((labels.dedup.filter (fun lab => lab != -1)).map
      (fun lab => pairsOf keep (maskSelect unpaired_idx (labelMask labels core lab)))).flatten

/-- torch_geometric `to_undirected`: append the reversed edges and coalesce
(remove duplicate directed edges; the sort performed by `coalesce` does not
affect membership or count). -/
def to_undirected (E : List (Int × Int)) : List (Int × Int) :=
  (E ++ E.map Prod.swap).dedup

/-- The tertiary-edge step of `RNAGraphFeaturizer.__call__` for one
conformer: cap the directed DBSCAN candidates at `2 * numSeq` by the
`random.sample` draw `choices`, then symmetrize. -/
def tertiary_edges_for_conformer (cands : List (Int × Int)) (numSeq : Nat)
    (choices : List Nat) : List (Int × Int) :=
  let directed :=
    if 2 * numSeq < cands.length then choices.map (fun c => cands.getD c (0, 0))
    else cands
  to_undirected directed

/-! ### Distinctness of the DBSCAN candidate edges -/

/-- Two directed edges are separated when they are distinct also as
unordered pairs. -/
def EdgeSep (p q : Int × Int) : Prop := p ≠ q ∧ p ≠ q.swap

/-- A candidate list is good when no edge is a self-loop and the edges are
pairwise distinct as unordered pairs. -/
def GoodPairs (l : List (Int × Int)) : Prop :=
  (∀ p ∈ l, p.1 ≠ p.2) ∧ l.Pairwise EdgeSep

/-! ## Theorems -/

/-! ### Lemmas about the dot-bracket scan -/

lemma dbAdjGo_open (cs : List Char) (i : Nat) (stack : List Nat) (adj : Nat → Nat → Int) :
    dbAdjGo ('(' :: cs) i stack adj = dbAdjGo cs (i + 1) (i :: stack) adj := rfl

lemma dbAdjGo_close (cs : List Char) (i j : Nat) (rest : List Nat) (adj : Nat → Nat → Int) :
    dbAdjGo (')' :: cs) i (j :: rest) adj =
      dbAdjGo cs (i + 1) rest (matUpd (matUpd adj i j 1) j i 1) := rfl

lemma dbAdjGo_close_nil (cs : List Char) (i : Nat) (adj : Nat → Nat → Int) :
    dbAdjGo (')' :: cs) i [] adj = none := rfl

lemma dbAdjGo_other (c : Char) (hc1 : ¬ c = '(') (hc2 : ¬ c = ')') (cs : List Char)
    (i : Nat) (stack : List Nat) (adj : Nat → Nat → Int) :
    dbAdjGo (c :: cs) i stack adj = dbAdjGo cs (i + 1) stack adj := by
  simp only [dbAdjGo, if_neg hc1, if_neg hc2]

lemma stackParseGo_open (cs : List Char) (i : Nat) (stack : List Nat) (acc : List (Nat × Nat)) :
    stackParseGo ('(' :: cs) i stack acc = stackParseGo cs (i + 1) (i :: stack) acc := rfl

lemma stackParseGo_close (cs : List Char) (i j : Nat) (rest : List Nat) (acc : List (Nat × Nat)) :
    stackParseGo (')' :: cs) i (j :: rest) acc =
      stackParseGo cs (i + 1) rest ((j, i) :: acc) := rfl

lemma stackParseGo_other (c : Char) (hc1 : ¬ c = '(') (hc2 : ¬ c = ')') (cs : List Char)
    (i : Nat) (stack : List Nat) (acc : List (Nat × Nat)) :
    stackParseGo (c :: cs) i stack acc = stackParseGo cs (i + 1) stack acc := by
  simp only [stackParseGo, if_neg hc1, if_neg hc2]

lemma dbNumGo_open (cs : List Char) (i : Nat) (stack : List Nat) (adj : Nat → Nat → Int) :
    dbNumGo ('(' :: cs) i stack adj = dbNumGo cs (i + 1) (i :: stack) adj := rfl

lemma dbNumGo_close (cs : List Char) (i j : Nat) (rest : List Nat) (adj : Nat → Nat → Int) :
    dbNumGo (')' :: cs) i (j :: rest) adj =
      dbNumGo cs (i + 1) rest (matUpd (matUpd adj i j 1) j i 1) := rfl

lemma dbNumGo_close_nil (cs : List Char) (i : Nat) (adj : Nat → Nat → Int) :
    dbNumGo (')' :: cs) i [] adj = none := rfl

lemma dbNumGo_other (c : Char) (hc1 : ¬ c = '(') (hc2 : ¬ c = ')') (cs : List Char)
    (i : Nat) (stack : List Nat) (adj : Nat → Nat → Int) :
    dbNumGo (c :: cs) i stack adj = dbNumGo cs (i + 1) stack adj := by
  simp only [dbNumGo, if_neg hc1, if_neg hc2]

lemma matUpd_pair_invariant {adj : Nat → Nat → Int} {acc : List (Nat × Nat)} (i j : Nat)
    (h1 : ∀ a b, adj a b = 1 ↔ ((a, b) ∈ acc ∨ (b, a) ∈ acc)) :
    ∀ a b, matUpd (matUpd adj i j 1) j i 1 a b = 1 ↔
      ((a, b) ∈ (j, i) :: acc ∨ (b, a) ∈ (j, i) :: acc) := by
  intro a b
  simp only [matUpd, List.mem_cons]
  by_cases hji : a = j ∧ b = i
  · rcases hji with ⟨rfl, rfl⟩
    simp
  · rw [if_neg hji]
    by_cases hij : a = i ∧ b = j
    · rcases hij with ⟨rfl, rfl⟩
      simp
    · rw [if_neg hij, h1]
      constructor
      · rintro (h | h)
        · exact Or.inl (Or.inr h)
        · exact Or.inr (Or.inr h)
      · rintro ((h | h) | (h | h))
        · injection h with h1 h2
          exact absurd ⟨h1, h2⟩ hji
        · exact Or.inl h
        · injection h with h1 h2
          exact absurd ⟨h2, h1⟩ hij
        · exact Or.inr h

lemma matUpd_zero_one {adj : Nat → Nat → Int} (i j : Nat)
    (h2 : ∀ a b, adj a b = 0 ∨ adj a b = 1) :
    ∀ a b, matUpd (matUpd adj i j 1) j i 1 a b = 0 ∨
           matUpd (matUpd adj i j 1) j i 1 a b = 1 := by
  intro a b
  simp only [matUpd]
  by_cases hji : a = j ∧ b = i
  · rw [if_pos hji]; exact Or.inr rfl
  · rw [if_neg hji]
    by_cases hij : a = i ∧ b = j
    · rw [if_pos hij]; exact Or.inr rfl
    · rw [if_neg hij]; exact h2 a b

lemma dbAdj_go_spec (cs : List Char) :
    ∀ (i : Nat) (stack : List Nat) (adj : Nat → Nat → Int) (acc : List (Nat × Nat)),
      (∀ k, k ≤ cs.length → (cs.take k).count ')' ≤ (cs.take k).count '(' + stack.length) →
      (∀ a b, adj a b = 1 ↔ ((a, b) ∈ acc ∨ (b, a) ∈ acc)) →
      (∀ a b, adj a b = 0 ∨ adj a b = 1) →
      ∃ adj2 ps2,
        dbAdjGo cs i stack adj = some adj2 ∧
        stackParseGo cs i stack acc = some ps2 ∧
        (∀ a b, adj2 a b = 1 ↔ ((a, b) ∈ ps2 ∨ (b, a) ∈ ps2)) ∧
        (∀ a b, adj2 a b = 0 ∨ adj2 a b = 1) := by
  induction cs with
  | nil =>
    intro i stack adj acc _ h1 h2
    exact ⟨adj, acc, rfl, rfl, h1, h2⟩
  | cons c cs ih =>
    intro i stack adj acc hbal h1 h2
    by_cases hc1 : c = '('
    · subst hc1
      rw [dbAdjGo_open, stackParseGo_open]
      apply ih (i + 1) (i :: stack) adj acc _ h1 h2
      intro k hk
      have h := hbal (k + 1) (by simpa using Nat.succ_le_succ hk)
      rw [List.take_succ_cons, List.count_cons_of_ne (by decide),
        List.count_cons_self] at h
      simp only [List.length_cons]
      omega
    · by_cases hc2 : c = ')'
      · subst hc2
        have hst : 1 ≤ stack.length := by
          have h := hbal 1 (by simp)
          have e0 : List.take 1 (')' :: cs) = [')'] := by simp
          have e1 : List.count ')' [')'] = 1 := by decide
          have e2 : List.count '(' [')'] = 0 := by decide
          rw [e0, e1, e2] at h
          omega
        match stack with
        | [] => simp at hst
        | j :: rest =>
          rw [dbAdjGo_close, stackParseGo_close]
          apply ih (i + 1) rest _ ((j, i) :: acc) _
            (matUpd_pair_invariant i j h1) (matUpd_zero_one i j h2)
          intro k hk
          have h := hbal (k + 1) (by simpa using Nat.succ_le_succ hk)
          rw [List.take_succ_cons, List.count_cons_self,
            List.count_cons_of_ne (by decide)] at h
          simp only [List.length_cons] at h
          omega
      · rw [dbAdjGo_other c hc1 hc2, stackParseGo_other c hc1 hc2]
        apply ih (i + 1) stack adj acc _ h1 h2
        intro k hk
        have h := hbal (k + 1) (by simpa using Nat.succ_le_succ hk)
        rw [List.take_succ_cons, List.count_cons_of_ne (fun h' => hc2 h'.symm),
          List.count_cons_of_ne (fun h' => hc1 h'.symm)] at h
        omega

lemma dbAdj_go_none (cs : List Char) :
    ∀ (i : Nat) (stack : List Nat) (adj : Nat → Nat → Int),
      (∃ k, k ≤ cs.length ∧ (cs.take k).count '(' + stack.length < (cs.take k).count ')') →
      dbAdjGo cs i stack adj = none := by
  induction cs with
  | nil =>
    intro i stack adj ⟨k, _, hbad⟩
    simp at hbad
  | cons c cs ih =>
    intro i stack adj ⟨k, hk, hbad⟩
    match k with
    | 0 => simp at hbad
    | k + 1 =>
      have hk' : k ≤ cs.length := by simpa using Nat.le_of_succ_le_succ hk
      rw [List.take_succ_cons] at hbad
      by_cases hc1 : c = '('
      · subst hc1
        rw [List.count_cons_self, List.count_cons_of_ne (by decide)] at hbad
        rw [dbAdjGo_open]
        apply ih (i + 1) (i :: stack) adj
        refine ⟨k, hk', ?_⟩
        simp only [List.length_cons]
        omega
      · by_cases hc2 : c = ')'
        · subst hc2
          rw [List.count_cons_of_ne (by decide), List.count_cons_self] at hbad
          match stack with
          | [] => exact dbAdjGo_close_nil cs i adj
          | j :: rest =>
            rw [dbAdjGo_close]
            apply ih (i + 1) rest
            refine ⟨k, hk', ?_⟩
            simp only [List.length_cons] at hbad
            omega
        · rw [List.count_cons_of_ne (fun h' => hc1 h'.symm),
            List.count_cons_of_ne (fun h' => hc2 h'.symm)] at hbad
          rw [dbAdjGo_other c hc1 hc2]
          exact ih (i + 1) stack adj ⟨k, hk', hbad⟩

lemma dbNumGo_eq_dbAdjGo (cs : List Char) :
    ∀ (i : Nat) (stack : List Nat) (adj : Nat → Nat → Int),
      dbNumGo cs i stack adj = dbAdjGo cs i stack adj := by
  induction cs with
  | nil => intro i stack adj; rfl
  | cons c cs ih =>
    intro i stack adj
    by_cases hc1 : c = '('
    · subst hc1
      rw [dbNumGo_open, dbAdjGo_open, ih]
    · by_cases hc2 : c = ')'
      · subst hc2
        match stack with
        | [] => rw [dbNumGo_close_nil, dbAdjGo_close_nil]
        | j :: rest => rw [dbNumGo_close, dbAdjGo_close, ih]
      · rw [dbNumGo_other c hc1 hc2, dbAdjGo_other c hc1 hc2, ih]

/-! ### Claims C6, C7, C9 -/

/-- C6: for any balanced dot-bracket string over the characters `.`, `(` and
`)`, converting it with `dotbracket_to_adjacency` succeeds, the direct
stack-based parse succeeds, a matrix entry is `1` exactly when the index pair
(in either orientation) is a paired tuple of the direct parse — so scanning
the matrix for 1-entries recovers exactly the parsed pair set — and the
matrix is symmetric. -/
theorem claim_C6 (s : String)
    (halpha : ∀ c ∈ s.data, c = '.' ∨ c = '(' ∨ c = ')')
    (hbal : Balanced s) :
    ∃ adj ps,
      dotbracket_to_adjacency s = some adj ∧
      stackParse s = some ps ∧
      (∀ a b, adj a b = 1 ↔ ((a, b) ∈ ps ∨ (b, a) ∈ ps)) ∧
      (∀ a b, adj a b = adj b a) := by
  obtain ⟨adj, ps, e1, e2, h1, h2⟩ :=
    dbAdj_go_spec s.data 0 [] (fun _ _ => 0) []
      (fun k hk => by simpa using hbal k hk)
      (by intro a b; simp)
      (by intro a b; exact Or.inl rfl)
  refine ⟨adj, ps, e1, e2, h1, ?_⟩
  intro a b
  have hsymm : adj a b = 1 ↔ adj b a = 1 := by
    rw [h1, h1]
    tauto
  rcases h2 a b with h | h <;> rcases h2 b a with h' | h' <;>
    simp only [h, h'] at hsymm ⊢ <;> tauto

/-- C6 witness: the theorem applied to the concrete balanced string `"(.)"`. -/
theorem claim_C6_witness :
    ∃ adj ps,
      dotbracket_to_adjacency "(.)" = some adj ∧
      stackParse "(.)" = some ps ∧
      (∀ a b, adj a b = 1 ↔ ((a, b) ∈ ps ∨ (b, a) ∈ ps)) ∧
      (∀ a b, adj a b = adj b a) :=
  claim_C6 "(.)" (by decide) (by unfold Balanced; decide)

/-- C7: on any string with a closing bracket that has no matching unmatched
opening bracket before it (an unbalanced string), `dotbracket_to_adjacency`
raises the stack-underflow IndexError from `stack.pop()` (modelled as `none`);
nothing inside the function catches it. -/
theorem claim_C7 (s : String) (h : ¬ Balanced s) :
    dotbracket_to_adjacency s = none := by
  unfold Balanced at h
  push_neg at h
  obtain ⟨k, hk, hbad⟩ := h
  unfold dotbracket_to_adjacency
  exact dbAdj_go_none s.data 0 [] _ ⟨k, hk, by simpa using hbad⟩

/-- C7 witness: the theorem applied to the concrete unbalanced string `")"`. -/
theorem claim_C7_witness : dotbracket_to_adjacency ")" = none :=
  claim_C7 ")" (by unfold Balanced; decide)

/-- C9: `dotbracket_to_num` and `dotbracket_to_adjacency` are extensionally
equal — their source bodies are identical, so on every input either both fail
(unmatched closing bracket) or both return the same adjacency matrix. -/
theorem claim_C9 (s : String) : dotbracket_to_num s = dotbracket_to_adjacency s := by
  unfold dotbracket_to_num dotbracket_to_adjacency
  exact dbNumGo_eq_dbAdjGo s.data 0 [] _

lemma x3dnaLoop_shift (l0 l1 l2 l3 l4 : String) (rest : List String) :
    ∀ (cnt j : Nat) (acc : List Char),
      x3dnaLoop (l0 :: l1 :: l2 :: l3 :: l4 :: rest) (j + 1) cnt acc =
      x3dnaSpecLoop (l0 :: l1 :: l2 :: l3 :: rest) (j + 1) cnt acc := by
  intro cnt
  induction cnt with
  | zero => intro j acc; rfl
  | succ c ih =>
    intro j acc
    have e1 : (l0 :: l1 :: l2 :: l3 :: l4 :: rest).get? (4 + (j + 1)) = rest.get? j := by
      have : 4 + (j + 1) = j + 5 := by omega
      rw [this]
      rfl
    have e2 : (l0 :: l1 :: l2 :: l3 :: rest).get? (3 + (j + 1)) = rest.get? j := by
      have : 3 + (j + 1) = j + 4 := by omega
      rw [this]
      rfl
    show (do
        let ln ← (l0 :: l1 :: l2 :: l3 :: l4 :: rest).get? (4 + (j + 1))
        let pr ← parsePairTokens ln
        let acc2 ← writePair acc pr
        x3dnaLoop (l0 :: l1 :: l2 :: l3 :: l4 :: rest) (j + 1 + 1) c acc2) =
      (do
        let ln ← (l0 :: l1 :: l2 :: l3 :: rest).get? (3 + (j + 1))
        let pr ← parsePairTokens ln
        let acc2 ← writePair acc pr
        x3dnaSpecLoop (l0 :: l1 :: l2 :: l3 :: rest) (j + 1 + 1) c acc2)
    rw [e1, e2]
    cases rest.get? j with
    | none => rfl
    | some ln =>
      simp only [Option.bind_eq_bind, Option.some_bind]
      cases parsePairTokens ln with
      | none => rfl
      | some pr =>
        simp only [Option.bind_eq_bind, Option.some_bind]
        cases writePair acc pr with
        | none => rfl
        | some acc2 =>
          simp only [Option.bind_eq_bind, Option.some_bind]
          exact ih (j + 1) acc2

/-! ### Claim C5 -/

/-- C5 counterexample: on a concrete find_pair stdout whose line index 3
reports one base pair, with the pair `1 2` on the line immediately following
(line index 4) and the pair `2 3` on line index 5, the function returns
`".()"` (it used line index 5), not `"()."` as reading "the following N
lines" (line index 4) would give — refuting the claim as stated. -/
theorem claim_C5_counterexample :
    x3dna_to_sec_struct ["", "", "", "1", "1 2", "2 3"] "AAA" = some ".()" ∧
    x3dna_to_sec_struct_specRead ["", "", "", "1", "1 2", "2 3"] "AAA" = some "()." ∧
    (".()" : String) ≠ "()." := by
  refine ⟨?_, ?_, by decide⟩ <;> rfl

/-- C5 amended: `x3dna_to_sec_struct` reads the base-pair count N from the
first whitespace-delimited token of line index 3, but the N pair lines start
at line index 5 (line index 4 is skipped), not immediately after the count
line.  Equivalently: on any stdout, the function behaves exactly as the
claim describes after the line at index 4 is deleted — same count line, then
the N pair lines, `(` at each start, `)` at each end, `.` elsewhere, over a
string of the sequence's length. -/
theorem claim_C5 (l0 l1 l2 l3 l4 : String) (rest : List String) (sequence : String) :
    x3dna_to_sec_struct (l0 :: l1 :: l2 :: l3 :: l4 :: rest) sequence =
    x3dna_to_sec_struct_specRead (l0 :: l1 :: l2 :: l3 :: rest) sequence := by
  show (do
      let l3x ← (l0 :: l1 :: l2 :: l3 :: l4 :: rest).get? 3
      let t ← (pySplit l3x).get? 0
      let nbp ← pyInt t
      let res ← x3dnaLoop (l0 :: l1 :: l2 :: l3 :: l4 :: rest) 1 nbp.toNat
        (List.replicate sequence.length '.')
      some (String.mk res)) =
    (do
      let l3x ← (l0 :: l1 :: l2 :: l3 :: rest).get? 3
      let t ← (pySplit l3x).get? 0
      let nbp ← pyInt t
      let res ← x3dnaSpecLoop (l0 :: l1 :: l2 :: l3 :: rest) 1 nbp.toNat
        (List.replicate sequence.length '.')
      some (String.mk res))
  have e3 : (l0 :: l1 :: l2 :: l3 :: l4 :: rest).get? 3 = some l3 := rfl
  have e4 : (l0 :: l1 :: l2 :: l3 :: rest).get? 3 = some l3 := rfl
  rw [e3, e4]
  simp only [Option.bind_eq_bind, Option.some_bind]
  cases (pySplit l3).get? 0 with
  | none => rfl
  | some t =>
    simp only [Option.bind_eq_bind, Option.some_bind]
    cases pyInt t with
    | none => rfl
    | some nbp =>
      simp only [Option.bind_eq_bind, Option.some_bind]
      have hs := x3dnaLoop_shift l0 l1 l2 l3 l4 rest nbp.toNat 0
        (List.replicate sequence.length '.')
      norm_num at hs
      rw [hs]

/-! ### Claims C8 and C10 -/

/-- C8: for any requested sample count strictly greater than 1 and different
from 100 (in particular 50), `predict_sec_struct` fails with the failed
assertion `n_samples == 100` (an UnsupportedOperation-class error) and the
list of spawned subprocesses is empty — the failure happens before any
subprocess is spawned, whatever the external tool would have answered. -/
theorem claim_C8 (eternafold_path fasta_file_path : String) (n_samples : Int)
    (runTool : List String → String)
    (h1 : 1 < n_samples) (h2 : n_samples ≠ 100) :
    predict_sec_struct eternafold_path fasta_file_path n_samples runTool =
      ([], Except.error PyErr.assertionError) := by
  unfold predict_sec_struct
  rw [if_pos h1, if_neg h2]

/-- C8 witness: the concrete count 50 with an arbitrary tool oracle. -/
theorem claim_C8_witness :
    predict_sec_struct "contrafold" "temp.fasta" 50 (fun _ => "anything") =
      ([], Except.error PyErr.assertionError) :=
  claim_C8 "contrafold" "temp.fasta" 50 (fun _ => "anything")
    (by decide) (by decide)

/-- C10: any requested sample count at most 1 — including 0 and negative
counts — skips the `n_samples == 100` guard entirely and takes the
single-prediction path: one `predict` subprocess is spawned and the result is
the one-element list holding the second-to-last newline-separated field of
the tool's stdout. -/
theorem claim_C10 (eternafold_path fasta_file_path : String) (n_samples : Int)
    (runTool : List String → String)
    (h1 : n_samples ≤ 1)
    (h2 : 2 ≤ (pySplitLines (runTool [eternafold_path, "predict", fasta_file_path])).length) :
    predict_sec_struct eternafold_path fasta_file_path n_samples runTool =
      ([[eternafold_path, "predict", fasta_file_path]],
        Except.ok [(pySplitLines (runTool [eternafold_path, "predict", fasta_file_path])).getD
          ((pySplitLines (runTool [eternafold_path, "predict", fasta_file_path])).length - 2) ""]) := by
  unfold predict_sec_struct
  rw [if_neg (by omega), if_pos h2]

/-- C10 witness: count 0 with a tool oracle answering two lines; the result
is the second-to-last line and the spawned command uses the `predict`
subcommand. -/
theorem claim_C10_witness :
    predict_sec_struct "contrafold" "temp.fasta" 0 (fun _ => "a\nb") =
      ([["contrafold", "predict", "temp.fasta"]],
        Except.ok [(pySplitLines "a\nb").getD ((pySplitLines "a\nb").length - 2) ""]) :=
  claim_C10 "contrafold" "temp.fasta" 0 (fun _ => "a\nb") (by decide) (by decide)

/-! ### Claims C1 and C3 -/

/-- C1 counterexample: a record with one conformer and the base-pair list
`[[(1, 2)]]`, featurized with `max_num_conformers = 2` (so one padding
conformer is drawn, index 0): after the call the caller's base-pair list is
`[[(1, 2)], [(1, 2)]]`, not the original `[[(1, 2)]]` — the input record is
mutated, refuting the claim. -/
theorem claim_C1_counterexample :
    (get_k_random_entries_and_masks_2 0 [[[[1, 1, 1], [1, 1, 1], [1, 1, 1]]]]
        [[(1, 2)]] 2 [0]).input_basepairs_after ≠ [[(1, 2)]] := by
  decide

/-- C1 amended: the input record's base-pair list is left unchanged exactly
when `max_num_conformers ≤` the number of available conformers; when it
exceeds it (`k > n`), the call appends the `k - n` drawn padding conformers'
base-pair lists to the caller's list in place, so afterwards the list equals
the original followed by those duplicates. -/
theorem claim_C1 (fill : ℚ) (coords_list : List Conf) (basepairs : List BPs)
    (k : Nat) (rand_idx : List Nat) :
    (k ≤ coords_list.length →
      (get_k_random_entries_and_masks_2 fill coords_list basepairs k
        rand_idx).input_basepairs_after = basepairs) ∧
    (coords_list.length < k →
      (get_k_random_entries_and_masks_2 fill coords_list basepairs k
        rand_idx).input_basepairs_after =
        basepairs ++ rand_idx.map (fun i => basepairs.getD i [])) := by
  constructor
  · intro h
    unfold get_k_random_entries_and_masks_2
    rw [if_neg (by omega)]
  · intro h
    unfold get_k_random_entries_and_masks_2
    rw [if_pos (by omega)]

/-- C1 amended, witness: both branches at concrete inputs. -/
theorem claim_C1_witness :
    (get_k_random_entries_and_masks_2 0 [[[[1, 1, 1], [1, 1, 1], [1, 1, 1]]]]
        [[(1, 2)]] 1 [0]).input_basepairs_after = [[(1, 2)]] ∧
    (get_k_random_entries_and_masks_2 0 [[[[1, 1, 1], [1, 1, 1], [1, 1, 1]]]]
        [[(1, 2)]] 2 [0]).input_basepairs_after = [[(1, 2)], [(1, 2)]] :=
  ⟨(claim_C1 0 [[[[1, 1, 1], [1, 1, 1], [1, 1, 1]]]] [[(1, 2)]] 1 [0]).1 (by decide),
   (claim_C1 0 [[[[1, 1, 1], [1, 1, 1], [1, 1, 1]]]] [[(1, 2)]] 2 [0]).2 (by decide)⟩

lemma range_map_getD {α : Type} (f : Nat → α) (d : α) (n pos : Nat) (h : pos < n) :
    ((List.range n).map f).getD pos d = f pos := by
  rw [List.getD_eq_getElem?_getD, List.getElem?_map, List.getElem?_range h]
  rfl

lemma fillCountAt_eq_zero_iff (fill : ℚ) (confs : List Conf) (i : Nat) :
    fillCountAt fill confs i = 0 ↔ ∀ c ∈ confs, fillCountRes fill (c.getD i []) = 0 := by
  unfold fillCountAt
  rw [List.sum_eq_zero_iff]
  constructor
  · intro h c hc
    exact h _ (List.mem_map_of_mem _ hc)
  · intro h x hx
    obtain ⟨c, hc, rfl⟩ := List.mem_map.mp hx
    exact h c hc

lemma rescueHead_getD_succ (ok : Bool) (l : List Bool) (q : Nat) (d : Bool) :
    (rescueHead ok l).getD (q + 1) d = l.getD (q + 1) d := by
  cases l with
  | nil => rfl
  | cons m0 restMask => rfl

lemma rescueHead_range_getD_zero (ok : Bool) (f : Nat → Bool) (n : Nat) (h0 : 0 < n) :
    (rescueHead ok ((List.range n).map f)).getD 0 false =
      (if !(f 0) && ok then true else f 0) := by
  obtain ⟨m, rfl⟩ : ∃ m, n = m + 1 := ⟨n - 1, by omega⟩
  rw [List.range_succ_eq_map]
  rfl

lemma rescue_bool_iff (A C : Prop) [Decidable A] [Decidable C] :
    ((if !(decide A) && decide C then true else decide A) = true) ↔ (A ∨ C) := by
  by_cases hA : A <;> by_cases hC : C <;> simp [hA, hC]

/-- C3: in `get_k_random_entries_and_masks_2`, for every possible random draw
(`rand_idx`; distinct in-range indices in the `k ≤ n` branch, in-range
indices in the `k > n` branch):
the conformer-validity mask is all-true of length `k` in both branches, and
in the `k ≤ n` branch a position `pos > 0` is marked valid in the coordinate
mask exactly when no sampled conformer has a sentinel entry at that
position, while position 0 is marked valid exactly when either no sampled
conformer has a sentinel entry there or fewer than 4 sentinel entries exist
at position 0 across all `n` original conformers (the forced rescue). -/
theorem claim_C3 (fill : ℚ) (coords_list : List Conf) (basepairs : List BPs)
    (k : Nat) (rand_idx : List Nat)
    (hwf1 : k ≤ coords_list.length →
      rand_idx.Nodup ∧ rand_idx.length = k ∧ ∀ i ∈ rand_idx, i < coords_list.length)
    (hwf2 : coords_list.length < k →
      rand_idx.length = k - coords_list.length ∧ ∀ i ∈ rand_idx, i < coords_list.length) :
    (get_k_random_entries_and_masks_2 fill coords_list basepairs k rand_idx).mask_confs =
      List.replicate k true ∧
    (k ≤ coords_list.length →
      (∀ pos, 0 < pos → pos < (coords_list.headD []).length →
        ((get_k_random_entries_and_masks_2 fill coords_list basepairs k
            rand_idx).mask_coords.getD pos false = true ↔
          ∀ c ∈ rand_idx.map (fun i => coords_list.getD i []),
            fillCountRes fill (c.getD pos []) = 0)) ∧
      (0 < (coords_list.headD []).length →
        ((get_k_random_entries_and_masks_2 fill coords_list basepairs k
            rand_idx).mask_coords.getD 0 false = true ↔
          ((∀ c ∈ rand_idx.map (fun i => coords_list.getD i []),
              fillCountRes fill (c.getD 0 []) = 0) ∨
            fillCountAt fill coords_list 0 < 4)))) := by
  constructor
  · unfold get_k_random_entries_and_masks_2
    by_cases h : coords_list.length < k
    · rw [if_pos h]
    · rw [if_neg h]
  · intro hk
    have hnotgt : ¬ (coords_list.length < k) := by omega
    constructor
    · intro pos hpos hlt
      unfold get_k_random_entries_and_masks_2
      rw [if_neg hnotgt]
      simp only
      obtain ⟨q, rfl⟩ : ∃ q, pos = q + 1 := ⟨pos - 1, by omega⟩
      rw [rescueHead_getD_succ, range_map_getD _ _ _ _ hlt, decide_eq_true_iff]
      exact fillCountAt_eq_zero_iff fill _ (q + 1)
    · intro h0
      unfold get_k_random_entries_and_masks_2
      rw [if_neg hnotgt]
      simp only
      rw [rescueHead_range_getD_zero _ _ _ h0]
      exact (rescue_bool_iff _ _).trans
        (or_congr_left (fillCountAt_eq_zero_iff fill _ 0))

/-- C3 witness: two conformers of one residue each, the second with a single
sentinel entry at position 0; drawing `k = 1` conformer (index 1).  The
conformer mask is `[true]`; position 0 is valid despite the sampled sentinel
entry because only one sentinel entry (< 4) exists across the originals. -/
theorem claim_C3_witness :
    (get_k_random_entries_and_masks_2 0 [[[[1, 1, 1], [1, 1, 1], [1, 1, 1]]],
        [[[0, 1, 1], [1, 1, 1], [1, 1, 1]]]] [[(1, 2)], []] 1 [1]).mask_confs =
      List.replicate 1 true ∧
    (1 ≤ ([[[[(1 : ℚ), 1, 1], [1, 1, 1], [1, 1, 1]]],
        [[[0, 1, 1], [1, 1, 1], [1, 1, 1]]]] : List Conf).length →
      (∀ pos, 0 < pos →
          pos < (([[[[(1 : ℚ), 1, 1], [1, 1, 1], [1, 1, 1]]],
            [[[0, 1, 1], [1, 1, 1], [1, 1, 1]]]] : List Conf).headD []).length →
        ((get_k_random_entries_and_masks_2 0 [[[[1, 1, 1], [1, 1, 1], [1, 1, 1]]],
            [[[0, 1, 1], [1, 1, 1], [1, 1, 1]]]] [[(1, 2)], []] 1
            [1]).mask_coords.getD pos false = true ↔
          ∀ c ∈ ([1] : List Nat).map (fun i =>
              ([[[[(1 : ℚ), 1, 1], [1, 1, 1], [1, 1, 1]]],
                [[[0, 1, 1], [1, 1, 1], [1, 1, 1]]]] : List Conf).getD i []),
            fillCountRes 0 (c.getD pos []) = 0)) ∧
      (0 < (([[[[(1 : ℚ), 1, 1], [1, 1, 1], [1, 1, 1]]],
          [[[0, 1, 1], [1, 1, 1], [1, 1, 1]]]] : List Conf).headD []).length →
        ((get_k_random_entries_and_masks_2 0 [[[[1, 1, 1], [1, 1, 1], [1, 1, 1]]],
            [[[0, 1, 1], [1, 1, 1], [1, 1, 1]]]] [[(1, 2)], []] 1
            [1]).mask_coords.getD 0 false = true ↔
          ((∀ c ∈ ([1] : List Nat).map (fun i =>
              ([[[[(1 : ℚ), 1, 1], [1, 1, 1], [1, 1, 1]]],
                [[[0, 1, 1], [1, 1, 1], [1, 1, 1]]]] : List Conf).getD i []),
              fillCountRes 0 (c.getD 0 []) = 0) ∨
            fillCountAt 0 [[[[1, 1, 1], [1, 1, 1], [1, 1, 1]]],
              [[[0, 1, 1], [1, 1, 1], [1, 1, 1]]]] 0 < 4)))) :=
  claim_C3 0 [[[[1, 1, 1], [1, 1, 1], [1, 1, 1]]], [[[0, 1, 1], [1, 1, 1], [1, 1, 1]]]]
    [[(1, 2)], []] 1 [1]
    (fun _ => by refine ⟨by decide, by decide, ?_⟩; decide)
    (fun h => absurd h (by decide))

/-! ### Lemmas about offset_basepairs -/

lemma maskSelect_length {α : Type} :
    ∀ (xs : List α) (bs : List Bool), xs.length = bs.length →
      (maskSelect xs bs).length = bs.count true := by
  intro xs
  induction xs with
  | nil =>
    intro bs h
    match bs with
    | [] => rfl
  | cons x xs ih =>
    intro bs h
    match bs with
    | b :: bs =>
      have h' : xs.length = bs.length := by simpa using h
      cases b with
      | true =>
        show (x :: maskSelect xs bs).length = (true :: bs).count true
        rw [List.count_cons_self, List.length_cons, ih bs h']
      | false =>
        show (maskSelect xs bs).length = (false :: bs).count true
        rw [List.count_cons_of_ne (by decide), ih bs h']

lemma range_map_add_succ (m t : Nat) :
    (List.range (m + 1)).map (· + t) = t :: (List.range m).map (· + (t + 1)) := by
  rw [List.range_succ_eq_map, List.map_cons, List.map_map]
  congr 1
  · omega
  · apply List.map_congr_left
    intro a _
    simp only [Function.comp_apply]
    omega

lemma kv_eq (ms : List Bool) : ∀ (s t : Nat),
    (maskSelect (List.range' s ms.length) ms).zip
      ((List.range (maskSelect (List.range' s ms.length) ms).length).map (· + t)) =
    kvRec s t ms := by
  induction ms with
  | nil => intro s t; rfl
  | cons b ms ih =>
    intro s t
    rw [show (b :: ms).length = ms.length + 1 from rfl, List.range'_succ]
    cases b with
    | true =>
      show ((s :: maskSelect (List.range' (s + 1) ms.length) ms).zip
        ((List.range (s :: maskSelect (List.range' (s + 1) ms.length) ms).length).map
          (· + t))) = (s, t) :: kvRec (s + 1) (t + 1) ms
      rw [List.length_cons, range_map_add_succ, List.zip_cons_cons, ih (s + 1) (t + 1)]
    | false =>
      show ((maskSelect (List.range' (s + 1) ms.length) ms).zip
        ((List.range (maskSelect (List.range' (s + 1) ms.length) ms).length).map
          (· + t))) = kvRec (s + 1) t ms
      exact ih (s + 1) t

lemma bpDict_eq_kvRec (masks : List Bool) :
    (pair_masked_keys masks).zip (pair_masked_vals masks) = kvRec 1 1 masks := by
  have h1 : (List.range masks.length).map (· + 1) = List.range' 1 masks.length := by
    rw [List.range'_eq_map_range]
    apply List.map_congr_left
    intro a _
    omega
  simp only [pair_masked_keys, pair_masked_vals]
  rw [h1]
  exact kv_eq masks 1 1

lemma dictGet_kvRec (ms : List Bool) : ∀ (s t : Nat) (p r : Int),
    dictGet (kvRec s t ms) p = r → r ≠ 0 →
    ∃ i, i < ms.length ∧ ms.getD i false = true ∧ p = ((s + i : Nat) : Int) ∧
      r = ((t + (ms.take i).count true : Nat) : Int) := by
  induction ms with
  | nil =>
    intro s t p r h hr
    exact absurd h.symm hr
  | cons b ms ih =>
    intro s t p r h hr
    cases b with
    | true =>
      rw [show kvRec s t (true :: ms) = (s, t) :: kvRec (s + 1) (t + 1) ms from rfl] at h
      by_cases hsp : ((s : Nat) : Int) = p
      · refine ⟨0, by simp, rfl, by simpa using hsp.symm, ?_⟩
        rw [show dictGet ((s, t) :: kvRec (s + 1) (t + 1) ms) p =
          if ((s : Nat) : Int) = p then (t : Int) else dictGet (kvRec (s + 1) (t + 1) ms) p
          from rfl, if_pos hsp] at h
        simpa using h.symm
      · rw [show dictGet ((s, t) :: kvRec (s + 1) (t + 1) ms) p =
          if ((s : Nat) : Int) = p then (t : Int) else dictGet (kvRec (s + 1) (t + 1) ms) p
          from rfl, if_neg hsp] at h
        obtain ⟨i, hi, hmi, hp, hrv⟩ := ih (s + 1) (t + 1) p r h hr
        refine ⟨i + 1, by simpa using hi, by simpa using hmi, ?_, ?_⟩
        · rw [hp]
          congr 1
          omega
        · rw [hrv, List.take_succ_cons, List.count_cons_self]
          congr 1
          omega
    | false =>
      rw [show kvRec s t (false :: ms) = kvRec (s + 1) t ms from rfl] at h
      obtain ⟨i, hi, hmi, hp, hrv⟩ := ih (s + 1) t p r h hr
      refine ⟨i + 1, by simpa using hi, by simpa using hmi, ?_, ?_⟩
      · rw [hp]
        congr 1
        omega
      · rw [hrv, List.take_succ_cons, List.count_cons_of_ne (by decide)]

/-- The characterization used by C4: a nonzero dictionary answer means the
queried old position is a surviving (mask-true) 1-indexed position, and the
answer is its new 1-indexed position (one plus the number of survivors
before it). -/
lemma bpDictGet_ne_zero (masks : List Bool) (p : Int)
    (h : bpDictGet masks p ≠ 0) :
    ∃ i, i < masks.length ∧ masks.getD i false = true ∧ p = ((1 + i : Nat) : Int) ∧
      bpDictGet masks p = ((1 + (masks.take i).count true : Nat) : Int) := by
  have h0 : bpDictGet masks p = dictGet (kvRec 1 1 masks) p := by
    unfold bpDictGet
    rw [bpDict_eq_kvRec]
  rw [h0] at h ⊢
  exact dictGet_kvRec masks 1 1 p _ rfl h

/-! ### Claim C4 -/

/-- C4: after residue filtering, the emitted sequence length equals the
number of `true` entries of the residue-validity mask; and every pair in the
per-conformer lists produced by `offset_basepairs` comes from an input pair
whose two 1-indexed endpoints both reference surviving (mask-true) residues,
translated to the new 1-indexed numbering (one plus the number of surviving
residues before the endpoint) — so no remapped pair has an endpoint that
referenced a dropped residue, and endpoints that miss the map (value 0)
drop their pair. -/
theorem claim_C4 (seq : List Nat) (masks : List Bool) (basepairs : List BPs)
    (hlen : seq.length = masks.length) :
    (maskSelect seq masks).length = masks.count true ∧
    (∀ kIdx : Nat, ∀ pr ∈ (offset_basepairs basepairs masks).getD kIdx [],
      ∃ pr0 ∈ basepairs.getD kIdx [], ∃ i j : Nat,
        i < masks.length ∧ j < masks.length ∧
        masks.getD i false = true ∧ masks.getD j false = true ∧
        pr0.1 = ((1 + i : Nat) : Int) ∧ pr0.2 = ((1 + j : Nat) : Int) ∧
        pr = (((1 + (masks.take i).count true : Nat) : Int),
              ((1 + (masks.take j).count true : Nat) : Int))) := by
  refine ⟨maskSelect_length seq masks hlen, ?_⟩
  intro kIdx pr hpr
  by_cases hk : kIdx < basepairs.length
  · obtain ⟨pairs0, h1⟩ : ∃ y, basepairs[kIdx]? = some y :=
      ⟨_, List.getElem?_eq_getElem hk⟩
    have e1 : (offset_basepairs basepairs masks).getD kIdx [] =
        ((pairs0.map (fun pr => (bpDictGet masks pr.1, bpDictGet masks pr.2))).filter
          (fun pr => pr.1 != 0 && pr.2 != 0)) := by
      unfold offset_basepairs
      rw [List.getD_eq_getElem?_getD, List.getElem?_map, h1]
      rfl
    have e2 : basepairs.getD kIdx [] = pairs0 := by
      rw [List.getD_eq_getElem?_getD, h1]
      rfl
    rw [e1] at hpr
    rw [e2]
    obtain ⟨hmem, hcond⟩ := List.mem_filter.mp hpr
    obtain ⟨pr0, hpr0, rfl⟩ := List.mem_map.mp hmem
    have hcond1 : bpDictGet masks pr0.1 ≠ 0 ∧ bpDictGet masks pr0.2 ≠ 0 := by
      constructor
      · exact bne_iff_ne.mp (Bool.and_elim_left hcond)
      · exact bne_iff_ne.mp (Bool.and_elim_right hcond)
    obtain ⟨i, hi, hmi, hp1, hv1⟩ := bpDictGet_ne_zero masks pr0.1 hcond1.1
    obtain ⟨j, hj, hmj, hp2, hv2⟩ := bpDictGet_ne_zero masks pr0.2 hcond1.2
    exact ⟨pr0, hpr0, i, j, hi, hj, hmi, hmj, hp1, hp2, by rw [hv1, hv2]⟩
  · have e1 : (offset_basepairs basepairs masks).getD kIdx [] = [] := by
      rw [List.getD_eq_getElem?_getD, List.getElem?_eq_none]
      · rfl
      · unfold offset_basepairs
        rw [List.length_map]
        omega
    rw [e1] at hpr
    simp at hpr

/-- C4 witness: mask `[true, false, true]` (residue 2 dropped) applied to a
three-residue sequence and the pair list `[[(1,3), (2,3)]]`: the emitted
length is 2, the pair `(1,3)` survives as `(1,2)`, and the pair `(2,3)`,
whose first endpoint referenced the dropped residue, is gone. -/
theorem claim_C4_witness :
    (maskSelect [10, 20, 30] [true, false, true]).length =
      ([true, false, true] : List Bool).count true ∧
    (∀ kIdx : Nat, ∀ pr ∈ (offset_basepairs [[(1, 3), (2, 3)]] [true, false, true]).getD kIdx [],
      ∃ pr0 ∈ ([[(1, 3), (2, 3)]] : List BPs).getD kIdx [], ∃ i j : Nat,
        i < ([true, false, true] : List Bool).length ∧
        j < ([true, false, true] : List Bool).length ∧
        ([true, false, true] : List Bool).getD i false = true ∧
        ([true, false, true] : List Bool).getD j false = true ∧
        pr0.1 = ((1 + i : Nat) : Int) ∧ pr0.2 = ((1 + j : Nat) : Int) ∧
        pr = (((1 + (([true, false, true] : List Bool).take i).count true : Nat) : Int),
              ((1 + (([true, false, true] : List Bool).take j).count true : Nat) : Int))) :=
  claim_C4 [10, 20, 30] [true, false, true] [[(1, 3), (2, 3)]] (by decide)

lemma edgeSep_symm : Symmetric EdgeSep := by
  intro p q ⟨h1, h2⟩
  refine ⟨fun h => h1 h.symm, fun h => h2 ?_⟩
  rw [h, Prod.swap_swap]

lemma get_unpaired_nodup (numSeq : Nat) (basepairs : BPs) :
    (get_unpaired numSeq basepairs).Nodup := by
  unfold get_unpaired
  have hinit : (((List.range numSeq).map (fun i : Nat => (i : Int)))).Nodup := by
    apply List.Nodup.map _ (List.nodup_range numSeq)
    intro a b h
    simpa using h
  generalize ((List.range numSeq).map (fun i : Nat => (i : Int))) = acc at hinit
  induction basepairs generalizing acc with
  | nil => exact hinit
  | cons pr restBps ih =>
    rw [List.foldl_cons]
    apply ih
    by_cases h : (pr.2 - pr.1).natAbs ≠ 1
    · rw [if_pos h]
      exact (hinit.erase _).erase _
    · rw [if_neg h]
      exact hinit

lemma maskSelect_sublist {α : Type} :
    ∀ (xs : List α) (bs : List Bool), (maskSelect xs bs).Sublist xs := by
  intro xs
  induction xs with
  | nil =>
    intro bs
    match bs with
    | [] => exact List.Sublist.refl []
    | _ :: _ => exact List.Sublist.refl []
  | cons x xs ih =>
    intro bs
    match bs with
    | [] => exact List.nil_sublist _
    | b :: bs =>
      cases b with
      | true =>
        show (x :: maskSelect xs bs).Sublist (x :: xs)
        exact (ih bs).cons₂ x
      | false =>
        show (maskSelect xs bs).Sublist (x :: xs)
        exact (ih bs).cons x

lemma maskSelect_mem_idx {α : Type} :
    ∀ (xs : List α) (bs : List Bool) (x : α), x ∈ maskSelect xs bs →
      ∃ iPos : Nat, xs[iPos]? = some x ∧ bs[iPos]? = some true := by
  intro xs
  induction xs with
  | nil =>
    intro bs x hx
    match bs with
    | [] => simp [maskSelect] at hx
  | cons y xs ih =>
    intro bs x hx
    match bs with
    | [] => simp [maskSelect] at hx
    | b :: bs =>
      cases b with
      | true =>
        rw [show maskSelect (y :: xs) (true :: bs) = y :: maskSelect xs bs from rfl] at hx
        rcases List.mem_cons.mp hx with rfl | hx'
        · exact ⟨0, by simp, by simp⟩
        · obtain ⟨iPos, h1, h2⟩ := ih bs x hx'
          exact ⟨iPos + 1, by simpa using h1, by simpa using h2⟩
      | false =>
        rw [show maskSelect (y :: xs) (false :: bs) = maskSelect xs bs from rfl] at hx
        obtain ⟨iPos, h1, h2⟩ := ih bs x hx
        exact ⟨iPos + 1, by simpa using h1, by simpa using h2⟩

lemma labelMask_true {labels : List Int} {core : List Bool} {lab : Int} {iPos : Nat}
    (h : (labelMask labels core lab)[iPos]? = some true) :
    labels[iPos]? = some lab := by
  unfold labelMask at h
  rw [List.getElem?_map] at h
  cases hz : (labels.zip core)[iPos]? with
  | none => rw [hz] at h; simp at h
  | some pc =>
    rw [hz] at h
    have h1 := (List.getElem?_zip_eq_some.mp hz).1
    simp only [Option.map_some'] at h
    have h2 : (pc.1 == lab) = true := by
      have h3 := Option.some.inj h
      exact (Bool.and_eq_true_iff.mp h3).1
    rw [h1]
    congr 1
    exact eq_of_beq h2

lemma pairsOf_mem (keep : Int → Int → Bool) :
    ∀ (idxm : List Int), ∀ p ∈ pairsOf keep idxm, p.1 ∈ idxm ∧ p.2 ∈ idxm := by
  intro idxm
  induction idxm with
  | nil => intro p hp; simp [pairsOf] at hp
  | cons a restIdx ih =>
    intro p hp
    rw [show pairsOf keep (a :: restIdx) =
      ((restIdx.filter (fun b => keep a b)).map (fun b => (a, b))) ++ pairsOf keep restIdx
      from rfl] at hp
    rcases List.mem_append.mp hp with hp1 | hp2
    · obtain ⟨b, hb, rfl⟩ := List.mem_map.mp hp1
      exact ⟨List.mem_cons_self a restIdx, List.mem_cons_of_mem a (List.mem_of_mem_filter hb)⟩
    · obtain ⟨h1, h2⟩ := ih p hp2
      exact ⟨List.mem_cons_of_mem a h1, List.mem_cons_of_mem a h2⟩

lemma pairsOf_good (keep : Int → Int → Bool) :
    ∀ (idxm : List Int), idxm.Nodup → GoodPairs (pairsOf keep idxm) := by
  intro idxm
  induction idxm with
  | nil => intro _; exact ⟨by intro p hp; simp [pairsOf] at hp, List.Pairwise.nil⟩
  | cons a restIdx ih =>
    intro hnd
    have hna : a ∉ restIdx := (List.nodup_cons.mp hnd).1
    have hndr : restIdx.Nodup := (List.nodup_cons.mp hnd).2
    obtain ⟨ihmem, ihpw⟩ := ih hndr
    rw [show pairsOf keep (a :: restIdx) =
      ((restIdx.filter (fun b => keep a b)).map (fun b => (a, b))) ++ pairsOf keep restIdx
      from rfl]
    constructor
    · intro p hp
      rcases List.mem_append.mp hp with hp1 | hp2
      · obtain ⟨b, hb, rfl⟩ := List.mem_map.mp hp1
        intro hab
        have hab' : a = b := hab
        exact hna (hab' ▸ List.mem_of_mem_filter hb)
      · exact ihmem p hp2
    · rw [List.pairwise_append]
      refine ⟨?_, ihpw, ?_⟩
      · rw [List.pairwise_map]
        apply List.Pairwise.imp_of_mem ?_ ((hndr.filter (fun b => keep a b)))
        intro b b' hb hb' hne
        constructor
        · intro h
          exact hne (congrArg Prod.snd h)
        · intro h
          have h' : a = b' := congrArg Prod.fst h
          exact hna (h' ▸ List.mem_of_mem_filter hb')
      · intro p hp1 q hq2
        obtain ⟨b, hb, rfl⟩ := List.mem_map.mp hp1
        obtain ⟨hq1, hq2'⟩ := pairsOf_mem keep restIdx q hq2
        constructor
        · intro h
          have h' : a = q.1 := congrArg Prod.fst h
          exact hna (h' ▸ hq1)
        · intro h
          have h' : a = q.2 := congrArg Prod.fst h
          exact hna (h' ▸ hq2')

lemma members_disjoint {unp : List Int} {labels : List Int} {core : List Bool}
    (hnd : unp.Nodup) {lab lab' : Int} (hll : lab ≠ lab') {x : Int}
    (hx : x ∈ maskSelect unp (labelMask labels core lab))
    (hx' : x ∈ maskSelect unp (labelMask labels core lab')) : False := by
  obtain ⟨iPos, hi1, hi2⟩ := maskSelect_mem_idx unp _ x hx
  obtain ⟨jPos, hj1, hj2⟩ := maskSelect_mem_idx unp _ x hx'
  have hij : iPos = jPos := by
    apply List.getElem?_inj ?_ hnd (hi1.trans hj1.symm)
    cases hilt : decide (iPos < unp.length) with
    | true => exact of_decide_eq_true hilt
    | false =>
      exfalso
      have : unp[iPos]? = none := List.getElem?_eq_none (by
        have := of_decide_eq_false hilt
        omega)
      rw [this] at hi1
      exact Option.noConfusion hi1
  subst hij
  have e1 := labelMask_true hi2
  have e2 := labelMask_true hj2
  rw [e1] at e2
  exact hll (Option.some.inj e2)

/-- The DBSCAN candidate list is good: no self-loops, and the directed
candidates are pairwise distinct as unordered pairs. -/
lemma unpaired_cluster_dbscan_good (unpaired_idx : List Int) (labels : List Int)
    (core : List Bool) (dist : Int → Int → Int) (primary_dist : Nat) (dbscan_eps : Int)
    (hnd : unpaired_idx.Nodup) :
    GoodPairs (unpaired_cluster_dbscan unpaired_idx labels core dist primary_dist
      dbscan_eps) := by
  unfold unpaired_cluster_dbscan
  by_cases he : unpaired_idx.isEmpty
  · rw [if_pos he]
    exact ⟨by intro p hp; simp at hp, List.Pairwise.nil⟩
  · rw [if_neg he]
    simp only
    constructor
    · intro p hp
      obtain ⟨block, hblock, hpb⟩ := List.mem_flatten.mp hp
      obtain ⟨lab, _, rfl⟩ := List.mem_map.mp hblock
      exact (pairsOf_good _ _ ((maskSelect_sublist unpaired_idx _).nodup hnd)).1 p hpb
    · rw [List.pairwise_flatten]
      constructor
      · intro block hblock
        obtain ⟨lab, _, rfl⟩ := List.mem_map.mp hblock
        exact (pairsOf_good _ _ ((maskSelect_sublist unpaired_idx _).nodup hnd)).2
      · rw [List.pairwise_map]
        apply List.Pairwise.imp_of_mem ?_
          ((List.nodup_dedup labels).filter (fun lab => lab != -1))
        intro lab lab' _ _ hll p hp q hq
        obtain ⟨hp1, hp2⟩ := pairsOf_mem _ _ p hp
        obtain ⟨hq1, hq2⟩ := pairsOf_mem _ _ q hq
        constructor
        · intro h
          exact members_disjoint hnd hll hp1 (h ▸ hq1)
        · intro h
          apply members_disjoint hnd hll hp1
          have : p.1 = q.2 := congrArg Prod.fst h
          exact this ▸ hq2

/-- Symmetrizing a good directed candidate list exactly doubles the directed
edge count: no duplicate collapses. -/
lemma to_undirected_length_of_good {l : List (Int × Int)} (hg : GoodPairs l) :
    (to_undirected l).length = 2 * l.length := by
  obtain ⟨hloop, hpw⟩ := hg
  have hnd : l.Nodup := hpw.imp (fun h => h.1)
  have hnds : (l.map Prod.swap).Nodup := hnd.map Prod.swap_injective
  have hdisj : l.Disjoint (l.map Prod.swap) := by
    intro p hp hps
    obtain ⟨q, hq, hqs⟩ := List.mem_map.mp hps
    by_cases hpq : p = q
    · subst hpq
      have : p.1 = p.2 := by
        have h2 := congrArg Prod.fst hqs
        exact h2.symm
      exact hloop p hp this
    · have hsep := hpw.forall edgeSep_symm hq hp (fun h => hpq h.symm)
      exact hsep.2 (by rw [← hqs, Prod.swap_swap])
  have hall : (l ++ l.map Prod.swap).Nodup := hnd.append hnds hdisj
  unfold to_undirected
  rw [List.dedup_eq_self.mpr hall, List.length_append, List.length_map]
  omega

/-- A distinct in-range draw from a good candidate list is good. -/
lemma subsample_good {cands : List (Int × Int)} (hg : GoodPairs cands)
    {choices : List Nat} (hnd : choices.Nodup)
    (hinr : ∀ c ∈ choices, c < cands.length) :
    GoodPairs (choices.map (fun c => cands.getD c (0, 0))) := by
  obtain ⟨hloop, hpw⟩ := hg
  have hget : ∀ c : Nat, c < cands.length → cands.getD c (0, 0) ∈ cands := by
    intro c hc
    rw [List.getD_eq_getElem?_getD, List.getElem?_eq_getElem hc]
    exact List.getElem_mem hc
  constructor
  · intro p hp
    obtain ⟨c, hc, rfl⟩ := List.mem_map.mp hp
    exact hloop _ (hget c (hinr c hc))
  · rw [List.pairwise_map]
    apply List.Pairwise.imp_of_mem ?_ hnd
    intro c c' hc hc' hne
    have hcl := hinr c hc
    have hcl' := hinr c' hc'
    have egetD : ∀ (d : Nat) (hd : d < cands.length), cands.getD d (0, 0) = cands[d] := by
      intro d hd
      rw [List.getD_eq_getElem?_getD, List.getElem?_eq_getElem hd]
      rfl
    rw [egetD c hcl, egetD c' hcl']
    rcases Nat.lt_or_ge c c' with hlt | hge
    · exact List.pairwise_iff_getElem.mp hpw c c' hcl hcl' hlt
    · have hlt' : c' < c := by omega
      exact edgeSep_symm (List.pairwise_iff_getElem.mp hpw c' c hcl' hcl hlt')

/-! ### Claim C2 -/

/-- C2 counterexample: a six-residue conformer with no base pairs (all six
residues unpaired), DBSCAN putting all six mean coordinates in one cluster
of core points at pairwise distance 3 (with `primary_dist = 0` and
`dbscan_eps = 10`, every pair qualifies) yields 15 directed candidates —
more than `2 * 6 = 12` — and the draw `choices = [0, …, 11]` keeps 12; but
the emitted tertiary edge count after symmetrization is 24, not
`2 * num_residues = 12`, refuting the claim's count. -/
theorem claim_C2_counterexample :
    2 * 6 < (unpaired_cluster_dbscan (get_unpaired 6 []) [0, 0, 0, 0, 0, 0]
      [true, true, true, true, true, true] (fun _ _ => 3) 0 10).length ∧
    (tertiary_edges_for_conformer
      (unpaired_cluster_dbscan (get_unpaired 6 []) [0, 0, 0, 0, 0, 0]
        [true, true, true, true, true, true] (fun _ _ => 3) 0 10)
      6 [0, 1, 2, 3, 4, 5, 6, 7, 8, 9, 10, 11]).length = 24 ∧ (24 : Nat) ≠ 2 * 6 := by
  refine ⟨by decide, by decide, by decide⟩

/-- C2 amended: for every conformer, when the directed tertiary candidate
set produced by the DBSCAN clustering step holds more than
`2 * num_kept_residues` entries, it is uniformly subsampled without
replacement (`choices`: distinct in-range positions) down to exactly
`2 * num_kept_residues` directed entries before symmetrization; the emitted
tertiary edge tensor for that conformer then holds exactly
`2 * (2 * num_residues)` directed entries, i.e. `2 * num_residues`
undirected edges — not `2 * num_residues` directed entries as stated. -/
theorem claim_C2 (numSeq : Nat) (basepairs : BPs) (labels : List Int)
    (core : List Bool) (dist : Int → Int → Int) (primary_dist : Nat)
    (dbscan_eps : Int) (choices : List Nat)
    (hgt : 2 * numSeq < (unpaired_cluster_dbscan (get_unpaired numSeq basepairs)
      labels core dist primary_dist dbscan_eps).length)
    (hnd : choices.Nodup) (hlen : choices.length = 2 * numSeq)
    (hinr : ∀ c ∈ choices, c < (unpaired_cluster_dbscan
      (get_unpaired numSeq basepairs) labels core dist primary_dist
      dbscan_eps).length) :
    (choices.map (fun c => (unpaired_cluster_dbscan (get_unpaired numSeq basepairs)
        labels core dist primary_dist dbscan_eps).getD c (0, 0))).length =
      2 * numSeq ∧
    (tertiary_edges_for_conformer
        (unpaired_cluster_dbscan (get_unpaired numSeq basepairs) labels core dist
          primary_dist dbscan_eps) numSeq choices).length = 2 * (2 * numSeq) := by
  constructor
  · rw [List.length_map]
    exact hlen
  · unfold tertiary_edges_for_conformer
    rw [if_pos hgt]
    rw [to_undirected_length_of_good (subsample_good
      (unpaired_cluster_dbscan_good _ labels core dist primary_dist dbscan_eps
        (get_unpaired_nodup numSeq basepairs)) hnd hinr)]
    rw [List.length_map, hlen]

/-- C2 amended, witness: the concrete six-residue instance of the
counterexample satisfies every hypothesis, and the theorem yields 12 kept
directed candidates and 24 emitted directed entries. -/
theorem claim_C2_witness :
    (([0, 1, 2, 3, 4, 5, 6, 7, 8, 9, 10, 11] : List Nat).map
      (fun c => (unpaired_cluster_dbscan (get_unpaired 6 []) [0, 0, 0, 0, 0, 0]
        [true, true, true, true, true, true] (fun _ _ => 3) 0 10).getD c (0, 0))).length =
      2 * 6 ∧
    (tertiary_edges_for_conformer
        (unpaired_cluster_dbscan (get_unpaired 6 []) [0, 0, 0, 0, 0, 0]
          [true, true, true, true, true, true] (fun _ _ => 3) 0 10)
        6 [0, 1, 2, 3, 4, 5, 6, 7, 8, 9, 10, 11]).length = 2 * (2 * 6) :=
  claim_C2 6 [] [0, 0, 0, 0, 0, 0] [true, true, true, true, true, true]
    (fun _ _ => 3) 0 10 [0, 1, 2, 3, 4, 5, 6, 7, 8, 9, 10, 11]
    (by decide) (by decide) (by decide) (by decide)

end RNADesign

